import Mathlib

/-!
# Verification of the keyword registry and error model of `jsonschema`

Shallow embedding of `keyword.go`:

* Go maps (`map[string]V`) are modelled as association lists with unique
  keys (all reachable maps are built by `goSet` starting from `[]`).
  `goFind` is map lookup, `goSet` is map assignment (`m[k] = v`), and
  `List.length` is `len(m)` (keys stay unique along `goSet` chains).
* `KeywordRegistry` carries the three maps of the Go struct; the factory
  type `KeyMaker` is `Unit → Keyword`, keeping keyword construction a
  genuine function call as in `r.keywordRegistry[prop]()`.
* The byte-string processing of `InvalidValueString` works on `List Char`
  (one entry per byte of the serialized text); `json.Marshal` is external
  to the repository and is passed in as an oracle `marshal : V → Option
  (List Char)` (`none` = marshal error).  A Go slice expression `bt[:n]`
  that would panic is modelled by an `Option` result (`none` = panic).
* The aliasing behaviour of `Copy` is modelled with an explicit heap of
  map cells (`Heap`), a registry value being three cell ids.
-/

set_option autoImplicit false

namespace JsonschemaGo

universe u
variable {β : Type u} {κ : Type u}

/-- Lookup in a Go map modelled as an association list (`v, ok := m[k]`). -/
def goFind : List (String × β) → String → Option β
  | [], _ => none
  | (k, v) :: rest, key => if k = key then some v else goFind rest key

/-- Go map assignment `m[k] = v`: replace the binding if the key is present,
append a fresh binding otherwise. -/
def goSet : List (String × β) → String → β → List (String × β)
  | [], key, v => [(key, v)]
  | (k, w) :: rest, key, v =>
    if k = key then (key, v) :: rest else (k, w) :: goSet rest key v

@[simp] theorem goFind_nil (key : String) : goFind ([] : List (String × β)) key = none := rfl

theorem goFind_goSet_self (m : List (String × β)) (key : String) (v : β) :
    goFind (goSet m key v) key = some v := by
  induction m with
  | nil => simp [goSet, goFind]
  | cons p rest ih =>
    obtain ⟨k, w⟩ := p
    by_cases hk : k = key
    · simp [goSet, hk, goFind]
    · simp [goSet, hk, goFind, ih]

theorem goFind_goSet_other (m : List (String × β)) (key key' : String) (v : β)
    (h : key ≠ key') : goFind (goSet m key v) key' = goFind m key' := by
  induction m with
  | nil => simp [goSet, goFind, h]
  | cons p rest ih =>
    obtain ⟨k, w⟩ := p
    by_cases hk : k = key
    · subst hk
      simp [goSet, goFind, h, ih]
    · simp [goSet, hk, goFind, ih]

theorem length_goSet_present (m : List (String × β)) (key : String) (v : β)
    (h : (goFind m key).isSome) : (goSet m key v).length = m.length := by
  induction m with
  | nil => simp [goFind] at h
  | cons p rest ih =>
    obtain ⟨k, w⟩ := p
    by_cases hk : k = key
    · simp [goSet, hk]
    · simp [goFind, hk] at h
      simp [goSet, hk, ih h]

theorem length_goSet_absent (m : List (String × β)) (key : String) (v : β)
    (h : goFind m key = none) : (goSet m key v).length = m.length + 1 := by
  induction m with
  | nil => simp [goSet]
  | cons p rest ih =>
    obtain ⟨k, w⟩ := p
    by_cases hk : k = key
    · simp [goFind, hk] at h
    · simp [goFind, hk] at h
      simp [goSet, hk, ih h]

/-- The registry struct of `keyword.go` (lines 33-37): keyword factories,
explicit priorities and first-registration tie-break orders, all keyed by
keyword name.  `κ` is the factory type (`KeyMaker`). -/
structure KeywordRegistry (κ : Type u) where
  keywordRegistry : List (String × κ)
  keywordOrder : List (String × Int)
  keywordInsertOrder : List (String × Int)

/-- A freshly created registry (`getGlobalKeywordRegistry`, lines 42-46):
all three maps empty. -/
def KeywordRegistry.empty : KeywordRegistry κ := ⟨[], [], []⟩

@[simp] theorem empty_keywordRegistry :
    (KeywordRegistry.empty : KeywordRegistry κ).keywordRegistry = [] := rfl

@[simp] theorem empty_keywordOrder :
    (KeywordRegistry.empty : KeywordRegistry κ).keywordOrder = [] := rfl

@[simp] theorem empty_keywordInsertOrder :
    (KeywordRegistry.empty : KeywordRegistry κ).keywordInsertOrder = [] := rfl

/-- `RegisterKeyword` (lines 139-142): store the factory and assign
`len(keywordInsertOrder)` — the size of the insert-order map before the
assignment — as the name's insert order. -/
def KeywordRegistry.registerKeyword (r : KeywordRegistry κ) (prop : String)
    (maker : κ) : KeywordRegistry κ :=
  { keywordRegistry := goSet r.keywordRegistry prop maker
    keywordOrder := r.keywordOrder
    keywordInsertOrder :=
      goSet r.keywordInsertOrder prop (r.keywordInsertOrder.length : Int) }

/-- `IsRegisteredKeyword` (lines 81-84). -/
def KeywordRegistry.isRegisteredKeyword (r : KeywordRegistry κ) (prop : String) : Bool :=
  (goFind r.keywordRegistry prop).isSome

/-- `GetKeywordOrder` (lines 96-101): stored priority, default `1`. -/
def KeywordRegistry.getKeywordOrder (r : KeywordRegistry κ) (prop : String) : Int :=
  match goFind r.keywordOrder prop with
  | some order => order
  | none => 1

/-- `GetKeywordInsertOrder` (lines 105-111): stored insert order, default
the sentinel `1000`. -/
def KeywordRegistry.getKeywordInsertOrder (r : KeywordRegistry κ) (prop : String) : Int :=
  match goFind r.keywordInsertOrder prop with
  | some order => order
  | none => 1000

/-- `SetKeywordOrder` (lines 114-116). -/
def KeywordRegistry.setKeywordOrder (r : KeywordRegistry κ) (prop : String)
    (order : Int) : KeywordRegistry κ :=
  { r with keywordOrder := goSet r.keywordOrder prop order }

/-- Register a whole list of (name, factory) pairs in order. -/
def registerAll (r : KeywordRegistry κ) (l : List (String × κ)) : KeywordRegistry κ :=
  l.foldl (fun acc p => acc.registerKeyword p.1 p.2) r

@[simp] theorem registerAll_nil (r : KeywordRegistry κ) : registerAll r [] = r := rfl

@[simp] theorem registerAll_cons (r : KeywordRegistry κ) (p : String × κ)
    (l : List (String × κ)) :
    registerAll r (p :: l) = registerAll (r.registerKeyword p.1 p.2) l := rfl

/-- `KeyError` (lines 196-204): a validation failure record.  `V` is the
type of decoded document values; `InvalidValue` is an interface value that
may be `nil`, hence `Option V`.  Texts are byte strings (`List Char`). -/
structure KeyError (V : Type u) where
  propertyPath : List Char
  invalidValue : Option V
  message : List Char

/-- The `Keyword` interface (lines 159-180), restricted to behaviour:
`ValidateKeyword` appends errors for a document value to the accumulated
error list of the validation state; `Register` updates a URI-keyed schema
registry; `Resolve` walks a pointer (token list) and a URI to a schema or
to nothing.  `S` is the external `Schema` type. -/
structure Keyword (V S : Type u) where
  validateKeyword : List (KeyError V) → V → List (KeyError V)
  register : String → List (String × S) → List (String × S)
  resolve : List String → String → Option S

/-- `KeyMaker` (line 192): a zero-argument factory of keyword instances. -/
abbrev KeyMaker (V S : Type u) := Unit → Keyword V S

/-- Modelled from the spec: the distinguished void keyword variant built by
`NewVoid` (defined in the repository outside `src/`), "a total no-op:
validates nothing, registers nothing, resolves nothing" — its
`ValidateKeyword` appends zero errors for any input and its `Resolve`
returns nothing for any pointer. -/
def NewVoid {V S : Type u} : Keyword V S :=
  { validateKeyword := fun errs _ => errs
    register := fun _ sr => sr
    resolve := fun _ _ => none }

/-- `GetKeyword` (lines 87-92): construct an instance with the stored
factory, or fall back to the void keyword for an unregistered name. -/
def KeywordRegistry.getKeyword {V S : Type u} (r : KeywordRegistry (KeyMaker V S))
    (prop : String) : Keyword V S :=
  match goFind r.keywordRegistry prop with
  | none => NewVoid
  | some maker => maker ()

/-- The default of the tunable `MaxKeywordErrStringLen` (line 155). -/
def maxKeywordErrStringLenDefault : Int := 20

/-- `bytes.Replace(bt, []byte{'\n', '\r'}, []byte{' '}, -1)` (line 222):
replace every non-overlapping occurrence of the two-byte sequence
`'\n' '\r'`, scanning left to right, by a single space.  Note the pattern
is the SEQUENCE newline-then-carriage-return, not the individual bytes. -/
def goBytesReplaceNLCR : List Char → List Char
  | [] => []
  | [c] => [c]
  | c1 :: c2 :: rest =>
    if c1 = '\n' ∧ c2 = '\r' then ' ' :: goBytesReplaceNLCR rest
    else c1 :: goBytesReplaceNLCR (c2 :: rest)

/-- The Go slice expression `bt[:n]` with an `int` bound: in range it is
the `n`-byte prefix, out of range (in particular any negative `n`) it
panics, modelled as `none`. -/
def goSliceTo (bt : List Char) (n : Int) : Option (List Char) :=
  if 0 ≤ n ∧ n ≤ (bt.length : Int) then some (bt.take n.toNat) else none

/-- The byte-level body of `InvalidValueString` (lines 222-226), applied to
the bytes produced by `json.Marshal`: collapse `'\n' '\r'` pairs, then, if
the configured maximum is not `-1` and the text is longer, truncate to the
maximum and append `"..."`.  `none` models the panic of the slice
expression `bt[:MaxKeywordErrStringLen]`. -/
def invalidValueStringFromBytes (maxLen : Int) (bt : List Char) : Option (List Char) :=
  let bt2 := goBytesReplaceNLCR bt
  if maxLen ≠ -1 ∧ (bt2.length : Int) > maxLen then
    (goSliceTo bt2 maxLen).map (fun s => s ++ ['.', '.', '.'])
  else
    some bt2

/-- `InvalidValueString` (lines 217-227).  `marshal` is the external
`json.Marshal` oracle; on a marshal error the function returns the empty
string (line 220). -/
def InvalidValueString {V : Type u} (marshal : V → Option (List Char)) (maxLen : Int)
    (data : V) : Option (List Char) :=
  match marshal data with
  | none => some []
  | some bt => invalidValueStringFromBytes maxLen bt

/-- `KeyError.Error` (lines 207-214): `"path: value message"` when both the
path and the invalid value are present, `"path: message"` when only the
path is, the bare message otherwise.  The `Option` propagates a potential
panic inside `InvalidValueString`. -/
def KeyError.error {V : Type u} (marshal : V → Option (List Char)) (maxLen : Int)
    (e : KeyError V) : Option (List Char) :=
  match e.invalidValue with
  | some v =>
    if e.propertyPath ≠ [] then
      (InvalidValueString marshal maxLen v).map
        (fun s => e.propertyPath ++ [':', ' '] ++ s ++ [' '] ++ e.message)
    else some e.message
  | none =>
    if e.propertyPath ≠ [] then some (e.propertyPath ++ [':', ' '] ++ e.message)
    else some e.message

/-! ## Heap model for `Copy`

Go maps are mutable references.  To state the independence of a `Copy`
from its source (claim about lines 58-78) we model a heap of map cells:
`kstore` holds factory-map cells, `istore` holds int-map cells, and a
registry value is three cell ids.  `Copy` allocates three fresh cells and
copies the contents element by element (on our functional contents this
is the contents themselves); mutators write through the ids in place. -/

/-- A registry value in the heap model: the ids of its three map cells. -/
structure RegistryRef where
  regId : Nat
  ordId : Nat
  insId : Nat

/-- The heap: contents of every factory-map cell and every int-map cell,
plus the next fresh id of each kind. -/
structure Heap (κ : Type u) where
  kstore : Nat → List (String × κ)
  istore : Nat → List (String × Int)
  knext : Nat
  inext : Nat

/-- Pointwise update of a store at one cell id. -/
def setCell {α : Type u} (f : Nat → α) (i : Nat) (v : α) : Nat → α :=
  fun j => if j = i then v else f j

@[simp] theorem setCell_self {α : Type u} (f : Nat → α) (i : Nat) (v : α) :
    setCell f i v i = v := by simp [setCell]

theorem setCell_other {α : Type u} (f : Nat → α) (i j : Nat) (v : α) (h : j ≠ i) :
    setCell f i v j = f j := by simp [setCell, h]

/-- `Copy` (lines 58-78) in the heap model: allocate three fresh map cells,
populate them with the source's contents, and return a registry value made
of the fresh ids. -/
def Heap.copy (h : Heap κ) (r : RegistryRef) : RegistryRef × Heap κ :=
  (⟨h.knext, h.inext, h.inext + 1⟩,
   { kstore := setCell h.kstore h.knext (h.kstore r.regId)
     istore := setCell (setCell h.istore h.inext (h.istore r.ordId))
       (h.inext + 1) (h.istore r.insId)
     knext := h.knext + 1
     inext := h.inext + 2 })

/-- `RegisterKeyword` (lines 139-142) in the heap model: mutate the factory
cell and the insert-order cell of `r` in place. -/
def Heap.registerKeyword (h : Heap κ) (r : RegistryRef) (prop : String)
    (maker : κ) : Heap κ :=
  { h with
    kstore := setCell h.kstore r.regId (goSet (h.kstore r.regId) prop maker)
    istore := setCell h.istore r.insId
      (goSet (h.istore r.insId) prop ((h.istore r.insId).length : Int)) }

/-- `SetKeywordOrder` (lines 114-116) in the heap model. -/
def Heap.setKeywordOrder (h : Heap κ) (r : RegistryRef) (prop : String)
    (order : Int) : Heap κ :=
  { h with
    istore := setCell h.istore r.ordId (goSet (h.istore r.ordId) prop order) }

/-- `IsRegisteredKeyword` read through the heap. -/
def Heap.isRegisteredKeyword (h : Heap κ) (r : RegistryRef) (prop : String) : Bool :=
  (goFind (h.kstore r.regId) prop).isSome

/-- `GetKeyword` read through the heap. -/
def Heap.getKeyword {V S : Type u} (h : Heap (KeyMaker V S)) (r : RegistryRef)
    (prop : String) : Keyword V S :=
  match goFind (h.kstore r.regId) prop with
  | none => NewVoid
  | some maker => maker ()

/-- `GetKeywordOrder` read through the heap. -/
def Heap.getKeywordOrder (h : Heap κ) (r : RegistryRef) (prop : String) : Int :=
  match goFind (h.istore r.ordId) prop with
  | some order => order
  | none => 1

/-- `GetKeywordInsertOrder` read through the heap. -/
def Heap.getKeywordInsertOrder (h : Heap κ) (r : RegistryRef) (prop : String) : Int :=
  match goFind (h.istore r.insId) prop with
  | some order => order
  | none => 1000

/-! ## Operation traces

The registry's mutating operations, as a trace, to quantify over every
registry reachable from a fresh one. -/

/-- A mutating registry operation: `RegisterKeyword` or `SetKeywordOrder`. -/
inductive RegOp (κ : Type u) where
  | register (prop : String) (maker : κ)
  | setOrder (prop : String) (order : Int)

/-- The keyword name an operation is passed. -/
def RegOp.prop : RegOp κ → String
  | .register p _ => p
  | .setOrder p _ => p

/-- Apply one operation to a registry. -/
def applyOp (r : KeywordRegistry κ) : RegOp κ → KeywordRegistry κ
  | .register p m => r.registerKeyword p m
  | .setOrder p o => r.setKeywordOrder p o

/-- Apply a trace of operations, oldest first. -/
def applyOps (r : KeywordRegistry κ) (l : List (RegOp κ)) : KeywordRegistry κ :=
  l.foldl applyOp r

@[simp] theorem applyOps_nil (r : KeywordRegistry κ) : applyOps r [] = r := rfl

@[simp] theorem applyOps_cons (r : KeywordRegistry κ) (op : RegOp κ)
    (l : List (RegOp κ)) : applyOps r (op :: l) = applyOps (applyOp r op) l := rfl

/-! ## Helper lemmas -/

/-- A trace never naming `name` leaves both order maps' bindings of `name`
untouched. -/
theorem goFind_applyOps_of_not_named (l : List (RegOp κ)) (r : KeywordRegistry κ)
    (name : String) (h : ∀ op ∈ l, op.prop ≠ name) :
    goFind (applyOps r l).keywordOrder name = goFind r.keywordOrder name ∧
    goFind (applyOps r l).keywordInsertOrder name = goFind r.keywordInsertOrder name := by
  induction l generalizing r with
  | nil => exact ⟨rfl, rfl⟩
  | cons op tl ih =>
    have hop : op.prop ≠ name := h op (List.mem_cons_self op tl)
    have htl : ∀ op ∈ tl, RegOp.prop op ≠ name := fun o ho => h o (List.mem_cons_of_mem op ho)
    obtain ⟨h1, h2⟩ := ih (applyOp r op) htl
    rw [applyOps_cons]
    cases op with
    | register p m =>
      simp only [RegOp.prop] at hop
      refine ⟨h1.trans ?_, h2.trans ?_⟩
      · rfl
      · exact goFind_goSet_other _ _ _ _ hop
    | setOrder p o =>
      simp only [RegOp.prop] at hop
      refine ⟨h1.trans ?_, h2.trans ?_⟩
      · exact goFind_goSet_other _ _ _ _ hop
      · rfl

/-- Registering a batch of names, none of which is `name`, leaves the
insert-order binding of `name` untouched. -/
theorem goFind_registerAll_of_not_mem (l : List (String × κ)) (r : KeywordRegistry κ)
    (name : String) (h : ∀ p ∈ l, p.1 ≠ name) :
    goFind (registerAll r l).keywordInsertOrder name =
      goFind r.keywordInsertOrder name := by
  induction l generalizing r with
  | nil => rfl
  | cons p tl ih =>
    have hp : p.1 ≠ name := h p (List.mem_cons_self p tl)
    have htl : ∀ q ∈ tl, Prod.fst q ≠ name := fun q hq => h q (List.mem_cons_of_mem p hq)
    rw [registerAll_cons, ih _ htl]
    exact goFind_goSet_other _ _ _ _ hp

/-- Registering pairwise-distinct fresh names assigns consecutive insert
orders starting at the current size of the insert-order map. -/
theorem insertOrder_registerAll (l : List (String × κ)) (r : KeywordRegistry κ)
    (hfresh : ∀ p ∈ l, goFind r.keywordInsertOrder p.1 = none)
    (hnodup : (l.map Prod.fst).Nodup) :
    ∀ i (hi : i < l.length),
      goFind (registerAll r l).keywordInsertOrder (l.get ⟨i, hi⟩).1 =
        some ((r.keywordInsertOrder.length : Int) + i) := by
  induction l generalizing r with
  | nil => intro i hi; exact absurd hi (by simp)
  | cons p tl ih =>
    obtain ⟨hhd, htlnodup⟩ := List.nodup_cons.mp hnodup
    have hp : goFind r.keywordInsertOrder p.1 = none := hfresh p (List.mem_cons_self p tl)
    have hlen : ((r.registerKeyword p.1 p.2).keywordInsertOrder).length =
        r.keywordInsertOrder.length + 1 := by
      simpa [KeywordRegistry.registerKeyword] using
        length_goSet_absent r.keywordInsertOrder p.1 _ hp
    have hfresh' : ∀ q ∈ tl, goFind (r.registerKeyword p.1 p.2).keywordInsertOrder q.1 = none := by
      intro q hq
      have hq1 : q.1 ≠ p.1 := by
        intro hcontra
        exact hhd (by simpa [hcontra] using List.mem_map_of_mem Prod.fst hq)
      calc goFind (r.registerKeyword p.1 p.2).keywordInsertOrder q.1
          = goFind r.keywordInsertOrder q.1 := by
            simpa [KeywordRegistry.registerKeyword] using
              goFind_goSet_other r.keywordInsertOrder p.1 q.1 _ (fun hx => hq1 hx.symm)
        _ = none := hfresh q (List.mem_cons_of_mem p hq)
    intro i hi
    match i with
    | 0 =>
      have hnot : ∀ q ∈ tl, q.1 ≠ p.1 := by
        intro q hq hcontra
        exact hhd (by simpa [hcontra] using List.mem_map_of_mem Prod.fst hq)
      rw [registerAll_cons]
      show goFind (registerAll (r.registerKeyword p.1 p.2) tl).keywordInsertOrder p.1 = _
      rw [goFind_registerAll_of_not_mem tl _ p.1 hnot]
      have : goFind (r.registerKeyword p.1 p.2).keywordInsertOrder p.1 =
          some (r.keywordInsertOrder.length : Int) := by
        simpa [KeywordRegistry.registerKeyword] using
          goFind_goSet_self r.keywordInsertOrder p.1 ((r.keywordInsertOrder.length : Int))
      rw [this]
      norm_num
    | Nat.succ j =>
      have hj : j < tl.length := by simpa [List.length_cons, Nat.succ_lt_succ_iff] using hi
      have := ih (r.registerKeyword p.1 p.2) hfresh' htlnodup j hj
      rw [registerAll_cons]
      show goFind (registerAll (r.registerKeyword p.1 p.2) tl).keywordInsertOrder
        (tl.get ⟨j, hj⟩).1 = _
      rw [this, hlen]
      push_cast
      ring_nf

/-- Collapsing `'\n' '\r'` pairs is the identity on byte strings without a
newline byte — in particular on every output of `json.Marshal`, which
escapes control bytes. -/
theorem goBytesReplaceNLCR_eq_self : ∀ (bt : List Char), '\n' ∉ bt →
    goBytesReplaceNLCR bt = bt
  | [], _ => rfl
  | [_], _ => rfl
  | c1 :: c2 :: rest, h => by
    have h1 : c1 ≠ '\n' := fun hc => h (by simp [hc])
    have h2 : '\n' ∉ c2 :: rest := fun hm => h (List.mem_cons_of_mem c1 hm)
    rw [goBytesReplaceNLCR, if_neg (fun hand => h1 hand.1),
      goBytesReplaceNLCR_eq_self (c2 :: rest) h2]

/-- All four lookups are determined by the contents of the three map cells
a registry's ids point to. -/
theorem heap_lookups_congr {V S : Type} (g1 g2 : Heap (KeyMaker V S)) (a b : RegistryRef)
    (hk : g1.kstore a.regId = g2.kstore b.regId)
    (ho : g1.istore a.ordId = g2.istore b.ordId)
    (hi : g1.istore a.insId = g2.istore b.insId) :
    ∀ prop, g1.isRegisteredKeyword a prop = g2.isRegisteredKeyword b prop ∧
      g1.getKeyword a prop = g2.getKeyword b prop ∧
      g1.getKeywordOrder a prop = g2.getKeywordOrder b prop ∧
      g1.getKeywordInsertOrder a prop = g2.getKeywordInsertOrder b prop := by
  intro prop
  refine ⟨?_, ?_, ?_, ?_⟩ <;>
    simp [Heap.isRegisteredKeyword, Heap.getKeyword, Heap.getKeywordOrder,
      Heap.getKeywordInsertOrder, hk, ho, hi]

/-! ## Claims -/

/-- C1, counterexample: re-registering a name does NOT leave its insert
order unchanged.  After registering `"minimum"` its insert order is `0`;
re-registering it assigns `len(keywordInsertOrder) = 1`. -/
theorem C1_counterexample :
    ((KeywordRegistry.empty : KeywordRegistry Unit).registerKeyword
        "minimum" ()).getKeywordInsertOrder "minimum" = 0 ∧
    (((KeywordRegistry.empty : KeywordRegistry Unit).registerKeyword
        "minimum" ()).registerKeyword "minimum" ()).getKeywordInsertOrder "minimum" = 1 := by
  constructor <;> rfl

/-- C1 (amended): re-registering a name already present makes `GetKeyword`
return instances built by the new factory, and reassigns the name's insert
order to the size of the insert-order map at re-registration time (so it
does not stay at the value from the first registration). -/
theorem C1_reregister {V S : Type} (r : KeywordRegistry (KeyMaker V S)) (prop : String)
    (maker : KeyMaker V S) (_hpresent : r.isRegisteredKeyword prop = true) :
    (r.registerKeyword prop maker).getKeyword prop = maker () ∧
    (r.registerKeyword prop maker).getKeywordInsertOrder prop =
      (r.keywordInsertOrder.length : Int) := by
  constructor
  · simp [KeywordRegistry.getKeyword, KeywordRegistry.registerKeyword, goFind_goSet_self]
  · simp [KeywordRegistry.getKeywordInsertOrder, KeywordRegistry.registerKeyword,
      goFind_goSet_self]

/-- C1, witness for `C1_reregister` at a concrete registry. -/
theorem C1_reregister_witness :
    ((KeywordRegistry.empty : KeywordRegistry (KeyMaker Unit Unit)).registerKeyword
        "a" (fun _ => NewVoid)).isRegisteredKeyword "a" = true ∧
    ((((KeywordRegistry.empty : KeywordRegistry (KeyMaker Unit Unit)).registerKeyword
          "a" (fun _ => NewVoid)).registerKeyword "a" (fun _ => NewVoid)).getKeyword "a" =
        (fun _ => NewVoid : KeyMaker Unit Unit) () ∧
      (((KeywordRegistry.empty : KeywordRegistry (KeyMaker Unit Unit)).registerKeyword
          "a" (fun _ => NewVoid)).registerKeyword "a" (fun _ => NewVoid)).getKeywordInsertOrder
          "a" =
        ((((KeywordRegistry.empty : KeywordRegistry (KeyMaker Unit Unit)).registerKeyword
          "a" (fun _ => NewVoid)).keywordInsertOrder).length : Int)) :=
  ⟨rfl, C1_reregister _ "a" (fun _ => NewVoid) rfl⟩

/-- C2, counterexample: a registry reached by the trace
`register a; register b; register a; register c` holds two distinct
registered names (`"a"` and `"c"`) with EQUAL insert orders (both `2`),
so the insert orders are neither pairwise distinct nor `0..N-1`. -/
theorem C2_counterexample :
    "a" ≠ "c" ∧
    (registerAll (KeywordRegistry.empty : KeywordRegistry Unit)
        [("a", ()), ("b", ()), ("a", ()), ("c", ())]).getKeywordInsertOrder "a" = 2 ∧
    (registerAll (KeywordRegistry.empty : KeywordRegistry Unit)
        [("a", ()), ("b", ()), ("a", ()), ("c", ())]).getKeywordInsertOrder "c" = 2 := by
  refine ⟨by decide, rfl, rfl⟩

/-- C2 (amended): for a registry built by registering pairwise-DISTINCT
names (no re-registration) starting from a fresh registry, the `i`-th
registered name's insert order is exactly `i` — hence insert orders are
pairwise distinct, the name registered first has the smaller value, and
after `N` names they span exactly `0..N-1`. -/
theorem C2_distinct_insert_orders {κ : Type} (l : List (String × κ))
    (hnodup : (l.map Prod.fst).Nodup) :
    ∀ i (hi : i < l.length),
      (registerAll (KeywordRegistry.empty : KeywordRegistry κ) l).getKeywordInsertOrder
        (l.get ⟨i, hi⟩).1 = (i : Int) := by
  intro i hi
  have h := insertOrder_registerAll l KeywordRegistry.empty
    (fun p _ => rfl) hnodup i hi
  simp only [empty_keywordInsertOrder, List.length_nil, Nat.cast_zero, zero_add,
    List.get_eq_getElem] at h
  simp [KeywordRegistry.getKeywordInsertOrder, h]

/-- C2, witness for `C2_distinct_insert_orders` at a concrete trace. -/
theorem C2_distinct_insert_orders_witness :
    (([("a", ()), ("b", ())] : List (String × Unit)).map Prod.fst).Nodup ∧
    (registerAll (KeywordRegistry.empty : KeywordRegistry Unit)
        [("a", ()), ("b", ())]).getKeywordInsertOrder "b" = (1 : Int) :=
  ⟨by decide, C2_distinct_insert_orders _ (by decide) 1 (by decide)⟩

/-- C7: for a name never passed to `RegisterKeyword` or `SetKeywordOrder`
along any trace of mutating operations on a fresh registry,
`GetKeywordOrder` returns the default priority `1` and
`GetKeywordInsertOrder` returns the sentinel `1000`. -/
theorem C7_unregistered_defaults {κ : Type} (l : List (RegOp κ)) (name : String)
    (h : ∀ op ∈ l, op.prop ≠ name) :
    (applyOps KeywordRegistry.empty l).getKeywordOrder name = 1 ∧
    (applyOps KeywordRegistry.empty l).getKeywordInsertOrder name = 1000 := by
  obtain ⟨h1, h2⟩ := goFind_applyOps_of_not_named l KeywordRegistry.empty name h
  rw [empty_keywordOrder, goFind_nil] at h1
  rw [empty_keywordInsertOrder, goFind_nil] at h2
  constructor
  · simp [KeywordRegistry.getKeywordOrder, h1]
  · simp [KeywordRegistry.getKeywordInsertOrder, h2]

/-- C7, witness for `C7_unregistered_defaults` at a concrete trace. -/
theorem C7_unregistered_defaults_witness :
    (∀ op ∈ ([RegOp.register "a" (), RegOp.setOrder "b" 5] : List (RegOp Unit)),
      op.prop ≠ "c") ∧
    ((applyOps KeywordRegistry.empty
        [RegOp.register "a" (), RegOp.setOrder "b" 5] : KeywordRegistry Unit).getKeywordOrder
        "c" = 1 ∧
      (applyOps KeywordRegistry.empty
        [RegOp.register "a" (), RegOp.setOrder "b" 5] : KeywordRegistry Unit).getKeywordInsertOrder
        "c" = 1000) :=
  ⟨by decide, C7_unregistered_defaults _ "c" (by decide)⟩

/-- C4: `GetKeyword` on an unregistered name does not fail: it returns the
designated void keyword variant, whose `ValidateKeyword` appends zero
errors for any input and whose `Resolve` returns nothing for any pointer. -/
theorem C4_unregistered_void {V S : Type} (r : KeywordRegistry (KeyMaker V S))
    (name : String) (h : goFind r.keywordRegistry name = none) :
    r.getKeyword name = NewVoid ∧
    (∀ (errs : List (KeyError V)) (v : V), (r.getKeyword name).validateKeyword errs v = errs) ∧
    (∀ (ptr : List String) (uri : String), (r.getKeyword name).resolve ptr uri = none) := by
  have hv : r.getKeyword name = NewVoid := by
    simp [KeywordRegistry.getKeyword, h]
  exact ⟨hv, fun errs v => by rw [hv]; rfl, fun ptr uri => by rw [hv]; rfl⟩

/-- C4, witness for `C4_unregistered_void` at the fresh registry. -/
theorem C4_unregistered_void_witness :
    goFind ((KeywordRegistry.empty : KeywordRegistry (KeyMaker Unit Unit)).keywordRegistry)
      "unknown" = none ∧
    ((KeywordRegistry.empty : KeywordRegistry (KeyMaker Unit Unit)).getKeyword "unknown" =
        NewVoid ∧
      ((KeywordRegistry.empty : KeywordRegistry (KeyMaker Unit Unit)).getKeyword
        "unknown").validateKeyword [] () = [] ∧
      ((KeywordRegistry.empty : KeywordRegistry (KeyMaker Unit Unit)).getKeyword
        "unknown").resolve [] "" = none) :=
  ⟨rfl,
    (C4_unregistered_void KeywordRegistry.empty "unknown" rfl).1,
    (C4_unregistered_void KeywordRegistry.empty "unknown" rfl).2.1 [] (),
    (C4_unregistered_void KeywordRegistry.empty "unknown" rfl).2.2 [] ""⟩

/-- C5: on a serialized text free of raw line-break bytes (as every
`json.Marshal` output is, since control bytes are escaped), with the
configured maximum non-negative and smaller than the text length,
`InvalidValueString` returns the maximum-length prefix followed by the
ellipsis marker `"..."`; with the maximum set to `-1` it returns the full
serialized text unmodified. -/
theorem C5_truncation {V : Type} (marshal : V → Option (List Char)) (maxLen : Int)
    (v : V) (bt : List Char) (hm : marshal v = some bt)
    (hn : '\n' ∉ bt) (_hr : '\r' ∉ bt) :
    (0 ≤ maxLen → maxLen < (bt.length : Int) →
      InvalidValueString marshal maxLen v =
        some (bt.take maxLen.toNat ++ ['.', '.', '.'])) ∧
    (maxLen = -1 → InvalidValueString marshal maxLen v = some bt) := by
  have hrepl : goBytesReplaceNLCR bt = bt := goBytesReplaceNLCR_eq_self bt hn
  constructor
  · intro h0 hlt
    have hne : maxLen ≠ -1 := by omega
    simp only [InvalidValueString, hm, invalidValueStringFromBytes, hrepl]
    rw [if_pos ⟨hne, hlt⟩, goSliceTo, if_pos ⟨h0, le_of_lt hlt⟩]
    rfl
  · intro hml
    subst hml
    simp [InvalidValueString, hm, invalidValueStringFromBytes, hrepl]

/-- C5, witness for `C5_truncation`: the serialized text `hello world`
(11 bytes) with maximum `5` yields `hello...`; with maximum `-1` it is
returned in full. -/
theorem C5_truncation_witness :
    ((fun _ : Unit => some ("hello world".toList)) () = some ("hello world".toList) ∧
      '\n' ∉ "hello world".toList ∧ '\r' ∉ "hello world".toList ∧
      (0 : Int) ≤ 5 ∧ (5 : Int) < ("hello world".toList.length : Int) ∧
      (-1 : Int) = -1) ∧
    InvalidValueString (fun _ : Unit => some ("hello world".toList)) 5 () =
      some ("hello world".toList.take (5 : Int).toNat ++ ['.', '.', '.']) ∧
    InvalidValueString (fun _ : Unit => some ("hello world".toList)) (-1) () =
      some ("hello world".toList) :=
  ⟨⟨rfl, by decide, by decide, by decide, by decide, rfl⟩,
    (C5_truncation _ 5 () _ rfl (by decide) (by decide)).1 (by decide) (by decide),
    (C5_truncation _ (-1) () _ rfl (by decide) (by decide)).2 rfl⟩

/-- C6: `KeyError.Error` renders `"path: value message"` (value via
`InvalidValueString`) when both the property path and the invalid value
are present, `"path: message"` when only the path is non-empty, and the
bare message otherwise; in particular a `KeyError` holding only the
message `bad` renders as `bad`. -/
theorem C6_keyError_rendering {V : Type} (marshal : V → Option (List Char))
    (maxLen : Int) (e : KeyError V) :
    (∀ v, e.invalidValue = some v → e.propertyPath ≠ [] →
      e.error marshal maxLen = (InvalidValueString marshal maxLen v).map
        (fun s => e.propertyPath ++ [':', ' '] ++ s ++ [' '] ++ e.message)) ∧
    (e.invalidValue = none → e.propertyPath ≠ [] →
      e.error marshal maxLen = some (e.propertyPath ++ [':', ' '] ++ e.message)) ∧
    (e.propertyPath = [] → e.error marshal maxLen = some e.message) ∧
    KeyError.error marshal maxLen ⟨[], none, ['b', 'a', 'd']⟩ = some ['b', 'a', 'd'] := by
  refine ⟨?_, ?_, ?_, rfl⟩
  · intro v hv hp
    simp [KeyError.error, hv, hp]
  · intro hv hp
    simp [KeyError.error, hv, hp]
  · intro hp
    cases hv : e.invalidValue <;> simp [KeyError.error, hv, hp]

/-- C6, witness for `C6_keyError_rendering` on concrete errors. -/
theorem C6_keyError_rendering_witness :
    ((⟨['p'], some (), ['m']⟩ : KeyError Unit).invalidValue = some () ∧
      (⟨['p'], some (), ['m']⟩ : KeyError Unit).propertyPath ≠ [] ∧
      (⟨['p'], none, ['m']⟩ : KeyError Unit).invalidValue = none ∧
      (⟨[], none, ['m']⟩ : KeyError Unit).propertyPath = []) ∧
    (KeyError.error (fun _ : Unit => some ['x']) 20 ⟨['p'], some (), ['m']⟩ =
        (InvalidValueString (fun _ : Unit => some ['x']) 20 ()).map
          (fun s => ['p'] ++ [':', ' '] ++ s ++ [' '] ++ ['m']) ∧
      KeyError.error (fun _ : Unit => some ['x']) 20 ⟨['p'], none, ['m']⟩ =
        some (['p'] ++ [':', ' '] ++ ['m']) ∧
      KeyError.error (fun _ : Unit => some ['x']) 20 ⟨[], none, ['m']⟩ = some ['m']) :=
  ⟨⟨rfl, by decide, rfl, rfl⟩,
    (C6_keyError_rendering (fun _ : Unit => some ['x']) 20 ⟨['p'], some (), ['m']⟩).1
      () rfl (by decide),
    (C6_keyError_rendering (fun _ : Unit => some ['x']) 20 ⟨['p'], none, ['m']⟩).2.1
      rfl (by decide),
    (C6_keyError_rendering (fun _ : Unit => some ['x']) 20 ⟨[], none, ['m']⟩).2.2.1 rfl⟩

/-- On serialized texts free of line-break bytes, every string the body of
`InvalidValueString` returns is also free of line-break bytes: the collapse
is the identity there, and truncation only takes a prefix and appends
dots. -/
theorem invalidValueStringFromBytes_no_line_breaks (maxLen : Int) (bt s : List Char)
    (hn : '\n' ∉ bt) (hr : '\r' ∉ bt)
    (hs : invalidValueStringFromBytes maxLen bt = some s) : '\n' ∉ s ∧ '\r' ∉ s := by
  have hrepl : goBytesReplaceNLCR bt = bt := goBytesReplaceNLCR_eq_self bt hn
  simp only [invalidValueStringFromBytes, hrepl] at hs
  by_cases hc : maxLen ≠ -1 ∧ (bt.length : Int) > maxLen
  · rw [if_pos hc, goSliceTo] at hs
    by_cases hb : 0 ≤ maxLen ∧ maxLen ≤ (bt.length : Int)
    · rw [if_pos hb] at hs
      simp only [Option.map_some'] at hs
      obtain rfl : bt.take maxLen.toNat ++ ['.', '.', '.'] = s := Option.some.inj hs
      constructor
      · intro hmem
        rcases List.mem_append.mp hmem with hmem | hmem
        · exact hn (List.take_subset _ _ hmem)
        · simp at hmem
      · intro hmem
        rcases List.mem_append.mp hmem with hmem | hmem
        · exact hr (List.take_subset _ _ hmem)
        · simp at hmem
    · rw [if_neg hb] at hs
      simp at hs
  · rw [if_neg hc] at hs
    obtain rfl : bt = s := Option.some.inj hs
    exact ⟨hn, hr⟩

/-- C8: for every value, the string returned by `InvalidValueString`
contains no newline and no carriage-return byte.  The serialized text is
produced by `json.Marshal`, whose output never contains a raw line-break
byte (control bytes inside strings are escaped and inter-token whitespace
is elided); this range fact about the external serializer is the
hypothesis on the oracle.  On such texts the collapse clause of the claim
is satisfied (there is no embedded line-break byte left uncollapsed), and
the `bytes.Replace` call — which targets the exact two-byte sequence
`'\n' '\r'` — is never given a byte it fails to strip. -/
theorem C8_no_line_breaks {V : Type} (marshal : V → Option (List Char)) (maxLen : Int)
    (v : V) (hrange : ∀ bt, marshal v = some bt → '\n' ∉ bt ∧ '\r' ∉ bt) :
    ∀ s, InvalidValueString marshal maxLen v = some s → '\n' ∉ s ∧ '\r' ∉ s := by
  intro s hs
  cases hmv : marshal v with
  | none =>
    simp only [InvalidValueString, hmv] at hs
    obtain rfl : ([] : List Char) = s := Option.some.inj hs
    exact ⟨by simp, by simp⟩
  | some bt =>
    obtain ⟨hn, hr⟩ := hrange bt hmv
    simp only [InvalidValueString, hmv] at hs
    exact invalidValueStringFromBytes_no_line_breaks maxLen bt s hn hr hs

/-- C8, witness for `C8_no_line_breaks` at a concrete marshal output. -/
theorem C8_no_line_breaks_witness :
    (∀ bt : List Char, (fun _ : Unit => some ['a', 'b']) () = some bt →
      '\n' ∉ bt ∧ '\r' ∉ bt) ∧
    ('\n' ∉ (['a', 'b'] : List Char) ∧ '\r' ∉ (['a', 'b'] : List Char)) :=
  ⟨fun bt h => by cases h; exact ⟨by decide, by decide⟩,
    C8_no_line_breaks (fun _ : Unit => some ['a', 'b']) 20 ()
      (fun bt h => by cases h; exact ⟨by decide, by decide⟩) ['a', 'b'] rfl⟩

/-- C9: when serialization fails, `InvalidValueString` returns the empty
string and does not propagate the failure (the call returns normally). -/
theorem C9_marshal_failure {V : Type} (marshal : V → Option (List Char))
    (maxLen : Int) (v : V) (h : marshal v = none) :
    InvalidValueString marshal maxLen v = some [] := by
  simp [InvalidValueString, h]

/-- C9, witness for `C9_marshal_failure` at a failing oracle. -/
theorem C9_marshal_failure_witness :
    (fun _ : Unit => (none : Option (List Char))) () = none ∧
    InvalidValueString (fun _ : Unit => (none : Option (List Char))) 20 () = some [] :=
  ⟨rfl, C9_marshal_failure _ 20 () rfl⟩

/-- C10: `InvalidValueString` is total exactly under the precondition that
the configured maximum is `-1` or non-negative; for any other negative
setting the truncation branch is taken with a negative slice bound, which
panics (`none`), for every value with non-empty serialized form. -/
theorem C10_truncation_totality (maxLen : Int) :
    ((maxLen = -1 ∨ 0 ≤ maxLen) →
      ∀ (V : Type) (marshal : V → Option (List Char)) (v : V),
        (InvalidValueString marshal maxLen v).isSome) ∧
    (maxLen < -1 →
      ∀ (V : Type) (marshal : V → Option (List Char)) (v : V) (bt : List Char),
        marshal v = some bt → bt ≠ [] →
        InvalidValueString marshal maxLen v = none) := by
  constructor
  · intro hml V marshal v
    cases hmv : marshal v with
    | none => simp [InvalidValueString, hmv]
    | some bt =>
      simp only [InvalidValueString, hmv, invalidValueStringFromBytes]
      by_cases hc : maxLen ≠ -1 ∧ ((goBytesReplaceNLCR bt).length : Int) > maxLen
      · rw [if_pos hc, goSliceTo, if_pos]
        · simp
        · refine ⟨?_, le_of_lt hc.2⟩
          rcases hml with hml | hml
          · exact absurd hml hc.1
          · exact hml
      · rw [if_neg hc]
        simp
  · intro hml V marshal v bt hmv _hne
    have hne1 : maxLen ≠ -1 := by omega
    have hgt : ((goBytesReplaceNLCR bt).length : Int) > maxLen := by
      have : (0 : Int) ≤ ((goBytesReplaceNLCR bt).length : Int) := Int.natCast_nonneg _
      omega
    have hslice : goSliceTo (goBytesReplaceNLCR bt) maxLen = none := by
      rw [goSliceTo, if_neg]
      intro hcontra
      omega
    simp [InvalidValueString, hmv, invalidValueStringFromBytes, hne1, hgt, hslice]

/-- C3: a `Copy` agrees with its source on every lookup at copy time, and
the copy and the source are independent: registering a keyword or setting
an order on the copy leaves every lookup on the source unchanged, and
mutating the source leaves every lookup on the copy unchanged.  The
hypotheses say the source's three map cells are allocated (their ids are
below the allocation watermarks), as holds for every registry obtained
from `getGlobalKeywordRegistry` or from an earlier `Copy`. -/
theorem C3_copy_independent {V S : Type} (h : Heap (KeyMaker V S)) (r : RegistryRef)
    (hreg : r.regId < h.knext) (hord : r.ordId < h.inext) (hins : r.insId < h.inext) :
    (∀ prop,
      (h.copy r).2.isRegisteredKeyword (h.copy r).1 prop = h.isRegisteredKeyword r prop ∧
      (h.copy r).2.getKeyword (h.copy r).1 prop = h.getKeyword r prop ∧
      (h.copy r).2.getKeywordOrder (h.copy r).1 prop = h.getKeywordOrder r prop ∧
      (h.copy r).2.getKeywordInsertOrder (h.copy r).1 prop =
        h.getKeywordInsertOrder r prop) ∧
    (∀ prop maker name,
      ((h.copy r).2.registerKeyword (h.copy r).1 prop maker).isRegisteredKeyword r name =
        h.isRegisteredKeyword r name ∧
      ((h.copy r).2.registerKeyword (h.copy r).1 prop maker).getKeyword r name =
        h.getKeyword r name ∧
      ((h.copy r).2.registerKeyword (h.copy r).1 prop maker).getKeywordOrder r name =
        h.getKeywordOrder r name ∧
      ((h.copy r).2.registerKeyword (h.copy r).1 prop maker).getKeywordInsertOrder r name =
        h.getKeywordInsertOrder r name) ∧
    (∀ prop order name,
      ((h.copy r).2.setKeywordOrder (h.copy r).1 prop order).isRegisteredKeyword r name =
        h.isRegisteredKeyword r name ∧
      ((h.copy r).2.setKeywordOrder (h.copy r).1 prop order).getKeyword r name =
        h.getKeyword r name ∧
      ((h.copy r).2.setKeywordOrder (h.copy r).1 prop order).getKeywordOrder r name =
        h.getKeywordOrder r name ∧
      ((h.copy r).2.setKeywordOrder (h.copy r).1 prop order).getKeywordInsertOrder r name =
        h.getKeywordInsertOrder r name) ∧
    (∀ prop maker name,
      ((h.copy r).2.registerKeyword r prop maker).isRegisteredKeyword (h.copy r).1 name =
        (h.copy r).2.isRegisteredKeyword (h.copy r).1 name ∧
      ((h.copy r).2.registerKeyword r prop maker).getKeyword (h.copy r).1 name =
        (h.copy r).2.getKeyword (h.copy r).1 name ∧
      ((h.copy r).2.registerKeyword r prop maker).getKeywordOrder (h.copy r).1 name =
        (h.copy r).2.getKeywordOrder (h.copy r).1 name ∧
      ((h.copy r).2.registerKeyword r prop maker).getKeywordInsertOrder (h.copy r).1 name =
        (h.copy r).2.getKeywordInsertOrder (h.copy r).1 name) ∧
    (∀ prop order name,
      ((h.copy r).2.setKeywordOrder r prop order).isRegisteredKeyword (h.copy r).1 name =
        (h.copy r).2.isRegisteredKeyword (h.copy r).1 name ∧
      ((h.copy r).2.setKeywordOrder r prop order).getKeyword (h.copy r).1 name =
        (h.copy r).2.getKeyword (h.copy r).1 name ∧
      ((h.copy r).2.setKeywordOrder r prop order).getKeywordOrder (h.copy r).1 name =
        (h.copy r).2.getKeywordOrder (h.copy r).1 name ∧
      ((h.copy r).2.setKeywordOrder r prop order).getKeywordInsertOrder (h.copy r).1 name =
        (h.copy r).2.getKeywordInsertOrder (h.copy r).1 name) := by
  have n1 : r.regId ≠ h.knext := Nat.ne_of_lt hreg
  have n2 : r.ordId ≠ h.inext := Nat.ne_of_lt hord
  have n3 : r.insId ≠ h.inext := Nat.ne_of_lt hins
  have n4 : r.ordId ≠ h.inext + 1 := by omega
  have n5 : r.insId ≠ h.inext + 1 := by omega
  have n1s : h.knext ≠ r.regId := Ne.symm n1
  have n2s : h.inext ≠ r.ordId := Ne.symm n2
  have n3s : h.inext ≠ r.insId := Ne.symm n3
  have n4s : h.inext + 1 ≠ r.ordId := Ne.symm n4
  have n5s : h.inext + 1 ≠ r.insId := Ne.symm n5
  refine ⟨heap_lookups_congr _ _ _ _ ?_ ?_ ?_,
    fun prop maker name => heap_lookups_congr _ _ _ _ ?_ ?_ ?_ name,
    fun prop order name => heap_lookups_congr _ _ _ _ ?_ ?_ ?_ name,
    fun prop maker name => heap_lookups_congr _ _ _ _ ?_ ?_ ?_ name,
    fun prop order name => heap_lookups_congr _ _ _ _ ?_ ?_ ?_ name⟩ <;>
  simp [Heap.copy, Heap.registerKeyword, Heap.setKeywordOrder, setCell,
    n1, n2, n3, n4, n5, n1s, n2s, n3s, n4s, n5s]

/-- A concrete two-cell heap and an allocated registry for the witness of
`C3_copy_independent`. -/
def heapW : Heap (KeyMaker Unit Unit) := ⟨fun _ => [], fun _ => [], 1, 2⟩

/-- The registry value of `heapW`: its three cell ids. -/
def refW : RegistryRef := ⟨0, 0, 1⟩

/-- C3, witness for `C3_copy_independent` at the concrete heap `heapW`. -/
theorem C3_copy_independent_witness :
    (refW.regId < heapW.knext ∧ refW.ordId < heapW.inext ∧ refW.insId < heapW.inext) ∧
    ((heapW.copy refW).2.isRegisteredKeyword (heapW.copy refW).1 "a" =
        heapW.isRegisteredKeyword refW "a" ∧
      (heapW.copy refW).2.getKeyword (heapW.copy refW).1 "a" = heapW.getKeyword refW "a" ∧
      (heapW.copy refW).2.getKeywordOrder (heapW.copy refW).1 "a" =
        heapW.getKeywordOrder refW "a" ∧
      (heapW.copy refW).2.getKeywordInsertOrder (heapW.copy refW).1 "a" =
        heapW.getKeywordInsertOrder refW "a") :=
  ⟨⟨by decide, by decide, by decide⟩,
    (C3_copy_independent heapW refW (by decide) (by decide) (by decide)).1 "a"⟩

/-- C10, witness for `C10_truncation_totality`: the default maximum `20`
is total on the two-byte text `ab`; the setting `-2` panics on it. -/
theorem C10_truncation_totality_witness :
    (((20 : Int) = -1 ∨ (0 : Int) ≤ 20) ∧ (-2 : Int) < -1 ∧
      (fun _ : Unit => some ['a', 'b']) () = some ['a', 'b'] ∧
      (['a', 'b'] : List Char) ≠ []) ∧
    ((InvalidValueString (fun _ : Unit => some ['a', 'b']) 20 ()).isSome ∧
      InvalidValueString (fun _ : Unit => some ['a', 'b']) (-2) () = none) :=
  ⟨⟨Or.inr (by decide), by decide, rfl, by decide⟩,
    (C10_truncation_totality 20).1 (Or.inr (by decide)) Unit _ (),
    (C10_truncation_totality (-2)).2 (by decide) Unit _ () ['a', 'b'] rfl (by decide)⟩

end JsonschemaGo
